import Mathlib

/-!
Verification of the backup lifecycle engine of `cedax/mongobackup`
(`src/index.js`, `src/restore.js`, `src/unnamed/part_000`).

The JavaScript sources are shallowly embedded:
* document trees are the inductive `BVal`; JSON text serialization and
  parsing are modelled at the value level (`JSON.parse ∘ JSON.stringify`
  is the identity on the JSON value tree, and `ObjectId.toJSON` renders
  an identifier as its hex string), so no byte-level printer is modelled;
* the MongoDB driver is external to the repository and is modelled from
  the spec's interface section: connection, `listCollections`, and
  per-collection reads are `Except`-valued fields of a `Database`
  structure, and bulk inserts take a per-document success predicate;
* the filesystem is modelled as a tree of named files (with integer
  modification times) and directories for the sweeper, and as a flat
  path-to-artifact association list for the writer;
* `new ObjectId(s)` for a string `s` succeeds exactly on 24-character
  hex strings and otherwise throws; construction from non-string values
  is modelled as a thrown error (no claim exercises non-string inputs).
-/

/-- A document-tree value: the JS values handled by `restoreObjectIds`
in `src/restore.js` (null, booleans, numbers, strings, arrays, plain
objects) together with native ObjectId values (`oid`), which we
represent by their 24-character hex rendering. Parsed JSON input
contains no `oid` node; decoded output may. -/
inductive BVal where
  | null
  | bool (b : Bool)
  | num (n : Int)
  | str (s : String)
  | oid (hex : String)
  | arr (elems : List BVal)
  | obj (fields : List (String × BVal))

/-- JavaScript `s.endsWith(t)`: `t` is a suffix of `s`, modelled on the
character lists. -/
def endsWithStr (s t : String) : Bool :=
  t.data.isSuffixOf s.data

/-- Key recognition from `src/restore.js` line 97:
`key === '_id' || key.endsWith('Id') || key === 'userId'`. -/
def recognizedKey (k : String) : Bool :=
  k == "_id" || endsWithStr k "Id" || k == "userId"

/-- A hexadecimal digit (either case), as accepted by the driver's
`ObjectId` constructor. -/
def isHexChar (c : Char) : Bool :=
  c.isDigit || ('a' ≤ c && c ≤ 'f') || ('A' ≤ c && c ≤ 'F')

/-- A valid `ObjectId` text rendering: exactly 24 hex characters. -/
def isHex24 (s : String) : Bool :=
  s.length == 24 && s.data.all isHexChar

/-- JavaScript truthiness of a value, as used by the guard
`if (obj.$oid)` in `src/restore.js` line 91. -/
def truthy : BVal → Bool
  | .null => false
  | .bool b => b
  | .num n => n != 0
  | .str s => s != ""
  | .oid _ => true
  | .arr _ => true
  | .obj _ => true

/-- `new ObjectId(v)` (line 92 of `src/restore.js`): succeeds on a
24-hex-character string and throws otherwise. Construction from
non-string values is modelled as a throw (see the header comment). -/
def reconstructOid : BVal → Except Unit BVal
  | .str s => if isHex24 s then .ok (.oid s) else .error ()
  | _ => .error ()

mutual

/-- `restoreObjectIds` from `src/restore.js` lines 81-112. `Except`
models the fact that the uncaught `new ObjectId(obj.$oid)` on line 92
can throw; the per-field reconstruction on lines 99-103 is wrapped in
`try`/`catch` and falls back to the original string. `oid` nodes never
occur in parsed JSON input and pass through. -/
def restoreObjectIds : BVal → Except Unit BVal
  | .null => .ok .null
  | .bool b => .ok (.bool b)
  | .num n => .ok (.num n)
  | .str s => .ok (.str s)
  | .oid h => .ok (.oid h)
  | .arr xs => do .ok (.arr (← restoreList xs))
  | .obj fields =>
    match List.lookup "$oid" fields with
    | some v =>
      if truthy v then reconstructOid v
      else do .ok (.obj (← restoreFields fields))
    | none => do .ok (.obj (← restoreFields fields))

/-- Elementwise decoding of an array (`obj.map(item => restoreObjectIds(item))`,
line 87 of `src/restore.js`). -/
def restoreList : List BVal → Except Unit (List BVal)
  | [] => .ok []
  | x :: xs => do .ok ((← restoreObjectIds x) :: (← restoreList xs))

/-- The `for (const [key, value] of Object.entries(obj))` loop of
`src/restore.js` lines 96-107: a recognized key holding a string of
length exactly 24 attempts identifier reconstruction, silently keeping
the string on failure; every other value is decoded recursively. -/
def restoreFields : List (String × BVal) → Except Unit (List (String × BVal))
  | [] => .ok []
  | (k, v) :: rest => do
    let v' ←
      match v with
      | .str s =>
        if recognizedKey k && (s.length == 24) then
          .ok (if isHex24 s then .oid s else .str s)
        else .ok (.str s)
      | w => restoreObjectIds w
    .ok ((k, v') :: (← restoreFields rest))

end

example :
    restoreObjectIds (.obj [("$oid", .str "aabbccddeeff001122334455")])
      = .ok (.oid "aabbccddeeff001122334455") := rfl

example :
    restoreObjectIds (.obj [("$oid", .str "zzzzzzzzzzzzzzzzzzzzzzzz")])
      = .error () := rfl

example :
    restoreObjectIds (.obj [("name", .str "Ana"), ("_id", .str "aabbccddeeff001122334455")])
      = .ok (.obj [("name", .str "Ana"), ("_id", .oid "aabbccddeeff001122334455")]) := rfl

/-- A plain string value that is itself a valid 24-hex identifier
rendering (the ambiguous shape the spec's design notes flag). -/
def spoofHexStr : BVal → Bool
  | .str s => isHex24 s
  | _ => false

mutual

/-- Well-formed document trees for the round-trip property: identifier
hex renderings are valid, no mapping uses the reserved key `$oid`, and
no recognized key holds a plain string that is itself 24 valid hex
characters (the looseness the spec flags: such a string would be
converted on decode). -/
def wfDoc : BVal → Bool
  | .null => true
  | .bool _ => true
  | .num _ => true
  | .str _ => true
  | .oid h => isHex24 h
  | .arr xs => wfList xs
  | .obj fs => wfFields fs

/-- `wfDoc` on every element of an array. -/
def wfList : List BVal → Bool
  | [] => true
  | x :: xs => wfDoc x && wfList xs

/-- `wfDoc` on every field of a mapping, plus the key-level conditions
of `wfDoc`. -/
def wfFields : List (String × BVal) → Bool
  | [] => true
  | (k, v) :: rest =>
    (k != "$oid")
      && !(recognizedKey k && spoofHexStr v)
      && wfDoc v && wfFields rest

end

mutual

/-- `encodesUnder r t j`: the JSON tree `j` is a serialization of the
document tree `t`, where every identifier is rendered either as the
spec's `encode` mapping `{ "$oid": hex }` or — only in a position whose
mapping key is recognized (`r = true`) — as the bare hex string that
`JSON.stringify` produces from `ObjectId.toJSON`. All other values
serialize structurally. -/
def encodesUnder : Bool → BVal → BVal → Bool
  | _, .null, .null => true
  | _, .bool b, .bool b' => b == b'
  | _, .num n, .num n' => n == n'
  | _, .str s, .str s' => s == s'
  | r, .oid h, .str s => r && (s == h)
  | _, .oid h, .obj [(k, .str s)] => (k == "$oid") && (s == h)
  | _, .arr xs, .arr js => encodesList xs js
  | _, .obj fs, .obj gs => encodesFields fs gs
  | _, _, _ => false

/-- Elementwise serialization of an array; array elements have no
mapping key, so bare identifier strings are not allowed there. -/
def encodesList : List BVal → List BVal → Bool
  | [], [] => true
  | x :: xs, j :: js => encodesUnder false x j && encodesList xs js
  | _, _ => false

/-- Fieldwise serialization of a mapping: keys are preserved and each
value serializes under its own key's recognition status. -/
def encodesFields : List (String × BVal) → List (String × BVal) → Bool
  | [], [] => true
  | (k, v) :: fs, (k', j) :: gs =>
    (k == k') && encodesUnder (recognizedKey k) v j && encodesFields fs gs
  | _, _ => false

end

/-- Structural induction over document trees, with the induction
hypothesis available for every array element and every field value. -/
theorem bvalInduction (motive : BVal → Prop)
    (hnull : motive .null) (hbool : ∀ b, motive (.bool b))
    (hnum : ∀ n, motive (.num n)) (hstr : ∀ s, motive (.str s))
    (hoid : ∀ h, motive (.oid h))
    (harr : ∀ xs, (∀ x, x ∈ xs → motive x) → motive (.arr xs))
    (hobj : ∀ fs, (∀ kv, kv ∈ fs → motive kv.2) → motive (.obj fs)) :
    ∀ t, motive t
  | .null => hnull
  | .bool b => hbool b
  | .num n => hnum n
  | .str s => hstr s
  | .oid h => hoid h
  | .arr xs => harr xs (fun x hx =>
      bvalInduction motive hnull hbool hnum hstr hoid harr hobj x)
  | .obj fs => hobj fs (fun kv hkv =>
      bvalInduction motive hnull hbool hnum hstr hoid harr hobj kv.2)
termination_by t => sizeOf t
decreasing_by
  · have h1 : sizeOf x < sizeOf xs := List.sizeOf_lt_of_mem hx
    simp only [BVal.arr.sizeOf_spec]
    omega
  · obtain ⟨k, v⟩ := kv
    have h1 : sizeOf (k, v) < sizeOf fs := List.sizeOf_lt_of_mem hkv
    simp only [BVal.obj.sizeOf_spec, Prod.mk.sizeOf_spec] at *
    omega

/-- The per-field computation of the `Object.entries` loop
(`src/restore.js` lines 97-106), factored out of `restoreFields`. -/
def restoreField (k : String) : BVal → Except Unit BVal
  | .str s =>
    if recognizedKey k && (s.length == 24) then
      .ok (if isHex24 s then .oid s else .str s)
    else .ok (.str s)
  | w => restoreObjectIds w

theorem restoreFields_cons (k : String) (v : BVal) (rest : List (String × BVal)) :
    restoreFields ((k, v) :: rest)
      = (restoreField k v).bind (fun v' =>
          (restoreFields rest).bind (fun r => Except.ok ((k, v') :: r))) := by
  cases v <;> simp [restoreFields, restoreField, bind, Except.bind] <;> split <;> rfl

theorem isHex24_length {s : String} (h : isHex24 s = true) : s.length = 24 := by
  simp only [isHex24, Bool.and_eq_true, beq_iff_eq] at h
  exact h.1

theorem isHex24_ne_empty {s : String} (h : isHex24 s = true) : s ≠ "" := by
  intro he
  subst he
  simp [isHex24] at h

theorem truthy_of_hex {s : String} (h : isHex24 s = true) :
    truthy (.str s) = true := by
  have := isHex24_ne_empty h
  simp [truthy, this]

/-- Decoding the `$oid`-wrapped rendering of a valid identifier. -/
theorem restore_wrapped {h : String} (hx : isHex24 h = true) :
    restoreObjectIds (.obj [("$oid", .str h)]) = .ok (.oid h) := by
  simp [restoreObjectIds, List.lookup, truthy_of_hex hx, reconstructOid, hx]

/-- A serialization of a well-formed mapping never carries a `$oid` key. -/
theorem lookup_oid_none :
    ∀ fs gs, encodesFields fs gs = true → wfFields fs = true →
      List.lookup "$oid" gs = none := by
  intro fs
  induction fs with
  | nil =>
    intro gs henc _
    cases gs with
    | nil => rfl
    | cons g gs' => simp [encodesFields] at henc
  | cons kv fs' ih =>
    intro gs henc hwf
    obtain ⟨k, v⟩ := kv
    cases gs with
    | nil => simp [encodesFields] at henc
    | cons g gs' =>
      obtain ⟨k', j⟩ := g
      simp only [encodesFields, Bool.and_eq_true, beq_iff_eq] at henc
      obtain ⟨⟨hk, _⟩, henc_rest⟩ := henc
      simp only [wfFields, Bool.and_eq_true, bne_iff_ne, ne_eq] at hwf
      obtain ⟨⟨⟨hk_oid, _⟩, _⟩, hwf_rest⟩ := hwf
      subst hk
      have hne : ("$oid" == k) = false :=
        beq_eq_false_iff_ne.mpr (fun he => hk_oid he.symm)
      simp [List.lookup, hne, ih gs' henc_rest hwf_rest]

/-- Elementwise decoding recovers an elementwise-serialized array, given
pointwise recovery of the elements. -/
theorem restoreList_encodes :
    ∀ xs : List BVal,
      (∀ x ∈ xs, wfDoc x = true →
        ∀ j, encodesUnder false x j = true → restoreObjectIds j = .ok x) →
      wfList xs = true →
      ∀ js, encodesList xs js = true → restoreList js = .ok xs := by
  intro xs
  induction xs with
  | nil =>
    intro _ _ js henc
    cases js with
    | nil => rfl
    | cons j js' => simp [encodesList] at henc
  | cons x xs' ih =>
    intro hIH hwf js henc
    cases js with
    | nil => simp [encodesList] at henc
    | cons j js' =>
      simp only [encodesList, Bool.and_eq_true] at henc
      simp only [wfList, Bool.and_eq_true] at hwf
      have h1 := hIH x (by simp) hwf.1 j henc.1
      have h2 := ih (fun y hy => hIH y (List.mem_cons_of_mem x hy)) hwf.2 js' henc.2
      simp [restoreList, h1, h2, bind, Except.bind]

/-- The per-field decode step recovers a serialized field value: a bare
hex identifier string under a recognized key is reconstructed, a
wrapped identifier is reconstructed by recursion, and every other
well-formed value decodes to itself. -/
theorem restoreField_encodes (k : String) (v : BVal)
    (IH : wfDoc v = true →
      ∀ j, encodesUnder false v j = true → restoreObjectIds j = .ok v)
    (hwf : wfDoc v = true)
    (hsp : (recognizedKey k && spoofHexStr v) = false) :
    ∀ j, encodesUnder (recognizedKey k) v j = true → restoreField k j = .ok v := by
  intro j henc
  cases v with
  | null =>
    cases j <;> simp [encodesUnder] at henc
    rfl
  | bool b =>
    cases j <;> simp [encodesUnder] at henc
    subst henc; rfl
  | num n =>
    cases j <;> simp [encodesUnder] at henc
    subst henc; rfl
  | str s =>
    cases j <;> simp [encodesUnder] at henc
    subst henc
    simp only [restoreField]
    by_cases hrk : recognizedKey k = true
    · simp only [hrk, Bool.true_and, spoofHexStr] at hsp
      by_cases hlen : (s.length == 24) = true
      · simp [hrk, hlen, hsp]
      · simp [hrk, Bool.true_and, hlen]
    · have : recognizedKey k = false := by
        cases hr : recognizedKey k
        · rfl
        · exact absurd hr hrk
      simp [this]
  | oid h =>
    simp only [wfDoc] at hwf
    cases j with
    | str s =>
      simp only [encodesUnder, Bool.and_eq_true, beq_iff_eq] at henc
      obtain ⟨hrk, hs⟩ := henc
      subst hs
      have hlen : (String.length s == 24) = true := by
        simp [isHex24_length hwf]
      simp [restoreField, hrk, hlen, hwf]
    | obj gs =>
      rcases gs with _ | ⟨⟨k2, v2⟩, rest⟩
      · simp [encodesUnder] at henc
      · cases v2 <;> cases rest <;> simp [encodesUnder] at henc
        obtain ⟨hk2, hs2⟩ := henc
        subst hk2; subst hs2
        simpa [restoreField] using restore_wrapped hwf
    | null => simp [encodesUnder] at henc
    | bool b => simp [encodesUnder] at henc
    | num n => simp [encodesUnder] at henc
    | oid h2 => simp [encodesUnder] at henc
    | arr js => simp [encodesUnder] at henc
  | arr xs =>
    cases j <;> simp [encodesUnder] at henc
    case arr js =>
      have := IH hwf (.arr js) (by simp [encodesUnder, henc])
      simpa [restoreField] using this
  | obj fs =>
    cases j with
    | obj gs =>
      simp only [encodesUnder] at henc
      have := IH hwf (.obj gs) (by simp [encodesUnder, henc])
      simpa [restoreField] using this
    | null => simp [encodesUnder] at henc
    | bool b => simp [encodesUnder] at henc
    | num n => simp [encodesUnder] at henc
    | str s => simp [encodesUnder] at henc
    | oid h2 => simp [encodesUnder] at henc
    | arr js => simp [encodesUnder] at henc

/-- Keywise decoding recovers a fieldwise-serialized mapping, given
pointwise recovery of the field values. -/
theorem restoreFields_encodes :
    ∀ fs : List (String × BVal),
      (∀ kv ∈ fs, wfDoc kv.2 = true →
        ∀ j, encodesUnder false kv.2 j = true → restoreObjectIds j = .ok kv.2) →
      wfFields fs = true →
      ∀ gs, encodesFields fs gs = true → restoreFields gs = .ok fs := by
  intro fs
  induction fs with
  | nil =>
    intro _ _ gs henc
    cases gs with
    | nil => rfl
    | cons g gs' => simp [encodesFields] at henc
  | cons kv fs' ih =>
    intro hIH hwf gs henc
    obtain ⟨k, v⟩ := kv
    cases gs with
    | nil => simp [encodesFields] at henc
    | cons g gs' =>
      obtain ⟨k', j⟩ := g
      simp only [encodesFields, Bool.and_eq_true, beq_iff_eq] at henc
      obtain ⟨⟨hk, henc_v⟩, henc_rest⟩ := henc
      subst hk
      simp only [wfFields, Bool.and_eq_true, Bool.not_eq_true'] at hwf
      obtain ⟨⟨⟨_, hsp⟩, hwf_v⟩, hwf_rest⟩ := hwf
      have h1 := restoreField_encodes k v (hIH (k, v) (by simp)) hwf_v hsp j henc_v
      have h2 := ih (fun y hy => hIH y (List.mem_cons_of_mem _ hy)) hwf_rest gs' henc_rest
      rw [restoreFields_cons, h1, h2]
      rfl

/-- C2: identifier round-trip. For every well-formed document tree,
decoding (`restoreObjectIds`) the parse of the serialized encoded tree
(`encodesUnder false t j`, which renders each identifier either as the
mapping `{ "$oid": hex }` or as a bare 24-character hex string in a
position whose key is `_id`, ends in `Id`, or equals `userId`)
reproduces the original tree — in particular every identifier value is
recovered exactly as a native identifier, not a string. -/
theorem c2_identifier_roundtrip :
    ∀ t : BVal, wfDoc t = true →
      ∀ j, encodesUnder false t j = true → restoreObjectIds j = .ok t := by
  intro t
  induction t using bvalInduction with
  | hnull =>
    intro _ j hj
    cases j <;> simp [encodesUnder] at hj
    rfl
  | hbool b =>
    intro _ j hj
    cases j <;> simp [encodesUnder] at hj
    subst hj; rfl
  | hnum n =>
    intro _ j hj
    cases j <;> simp [encodesUnder] at hj
    subst hj; rfl
  | hstr s =>
    intro _ j hj
    cases j <;> simp [encodesUnder] at hj
    subst hj; rfl
  | hoid h =>
    intro hwf j hj
    simp only [wfDoc] at hwf
    cases j with
    | obj gs =>
      rcases gs with _ | ⟨⟨k2, v2⟩, rest⟩
      · simp [encodesUnder] at hj
      · cases v2 <;> cases rest <;> simp [encodesUnder] at hj
        obtain ⟨hk2, hs2⟩ := hj
        subst hk2; subst hs2
        exact restore_wrapped hwf
    | null => simp [encodesUnder] at hj
    | bool b => simp [encodesUnder] at hj
    | num n => simp [encodesUnder] at hj
    | str s => simp [encodesUnder] at hj
    | oid h2 => simp [encodesUnder] at hj
    | arr js => simp [encodesUnder] at hj
  | harr xs ih =>
    intro hwf j hj
    simp only [wfDoc] at hwf
    cases j <;> simp [encodesUnder] at hj
    case arr js =>
      have := restoreList_encodes xs ih hwf js hj
      simp [restoreObjectIds, this, bind, Except.bind]
  | hobj fs ih =>
    intro hwf j hj
    simp only [wfDoc] at hwf
    cases j with
    | obj gs =>
      simp only [encodesUnder] at hj
      have hlk := lookup_oid_none fs gs hj hwf
      have hrf := restoreFields_encodes fs ih hwf gs hj
      simp [restoreObjectIds, hlk, hrf, bind, Except.bind]
    | null => simp [encodesUnder] at hj
    | bool b => simp [encodesUnder] at hj
    | num n => simp [encodesUnder] at hj
    | str s => simp [encodesUnder] at hj
    | oid h2 => simp [encodesUnder] at hj
    | arr js => simp [encodesUnder] at hj

/-- Witness for C2: a tree with one identifier stored bare under the
recognized key `_id` and one identifier stored `$oid`-wrapped under the
unrecognized key `ptr` round-trips exactly. -/
theorem c2_identifier_roundtrip_witness :
    wfDoc (.obj [("_id", .oid "aabbccddeeff001122334455"),
                 ("ptr", .oid "00112233445566778899aabb")]) = true
    ∧ encodesUnder false
        (.obj [("_id", .oid "aabbccddeeff001122334455"),
               ("ptr", .oid "00112233445566778899aabb")])
        (.obj [("_id", .str "aabbccddeeff001122334455"),
               ("ptr", .obj [("$oid", .str "00112233445566778899aabb")])]) = true
    ∧ restoreObjectIds
        (.obj [("_id", .str "aabbccddeeff001122334455"),
               ("ptr", .obj [("$oid", .str "00112233445566778899aabb")])])
      = .ok (.obj [("_id", .oid "aabbccddeeff001122334455"),
                   ("ptr", .oid "00112233445566778899aabb")]) :=
  ⟨rfl, rfl,
    c2_identifier_roundtrip
      (.obj [("_id", .oid "aabbccddeeff001122334455"),
             ("ptr", .oid "00112233445566778899aabb")]) rfl
      (.obj [("_id", .str "aabbccddeeff001122334455"),
             ("ptr", .obj [("$oid", .str "00112233445566778899aabb")])]) rfl⟩

/-- The keywise loop never adds, drops, renames or reorders keys. -/
theorem restoreFields_keys :
    ∀ gs gs', restoreFields gs = .ok gs' →
      gs'.map Prod.fst = gs.map Prod.fst := by
  intro gs
  induction gs with
  | nil =>
    intro gs' hg
    rw [show restoreFields [] = .ok [] from rfl] at hg
    cases hg
    rfl
  | cons kv rest ih =>
    intro gs' hg
    obtain ⟨k, v⟩ := kv
    rw [restoreFields_cons] at hg
    cases hv : restoreField k v with
    | error e => rw [hv] at hg; cases hg
    | ok v' =>
      cases hr : restoreFields rest with
      | error e => rw [hv, hr] at hg; cases hg
      | ok rest' =>
        rw [hv, hr] at hg
        cases hg
        simp [ih rest' hr]

/-- C3 counterexample: a mapping containing a `$oid` key whose (truthy)
string value is not valid hex. The claim says decode replaces the
mapping with a reconstructed identifier and that failed reconstruction
preserves the value with no error raised; the code instead throws from
the uncaught `new ObjectId(obj.$oid)` on line 92 of `src/restore.js`. -/
theorem c3_recognition_rule_cex :
    restoreObjectIds (.obj [("$oid", .str "zzzzzzzzzzzzzzzzzzzzzzzz")])
      = .error () := rfl

/-- C3 (amended): the recognition rule with the `$oid` branch restricted
to truthy values, and with reconstruction failure silently absorbed only
in the recognized-key branch (b) — in branch (a) an unreconstructible
truthy `$oid` string raises an error. Stated as: (1) truthy valid `$oid`
decodes to the identifier; (2) truthy invalid `$oid` raises an error;
(3) recognized key, 24-char valid-hex string value reconstructs;
(4) recognized key, 24-char non-hex string value is preserved unchanged
with no error; (5) other string fields pass through; (6) sequences
recurse elementwise; (7) mappings without `$oid` recurse keywise;
(8)-(11) scalars and null pass through unchanged. -/
theorem c3_recognition_rule_amended :
    (∀ fs s, List.lookup "$oid" fs = some (.str s) → s ≠ "" → isHex24 s = true →
        restoreObjectIds (.obj fs) = .ok (.oid s))
    ∧ (∀ fs s, List.lookup "$oid" fs = some (.str s) → s ≠ "" → isHex24 s = false →
        restoreObjectIds (.obj fs) = .error ())
    ∧ (∀ k s, recognizedKey k = true → s.length = 24 → isHex24 s = true →
        restoreField k (.str s) = .ok (.oid s))
    ∧ (∀ k s, recognizedKey k = true → s.length = 24 → isHex24 s = false →
        restoreField k (.str s) = .ok (.str s))
    ∧ (∀ k s, recognizedKey k = false ∨ s.length ≠ 24 →
        restoreField k (.str s) = .ok (.str s))
    ∧ (∀ js, restoreObjectIds (.arr js) = Except.map BVal.arr (restoreList js))
    ∧ (∀ fs, List.lookup "$oid" fs = none →
        restoreObjectIds (.obj fs) = Except.map BVal.obj (restoreFields fs))
    ∧ (∀ s, restoreObjectIds (.str s) = .ok (.str s))
    ∧ (∀ n, restoreObjectIds (.num n) = .ok (.num n))
    ∧ (∀ b, restoreObjectIds (.bool b) = .ok (.bool b))
    ∧ restoreObjectIds .null = .ok .null := by
  refine ⟨?_, ?_, ?_, ?_, ?_, ?_, ?_, ?_, ?_, ?_, rfl⟩
  · intro fs s h hne hhex
    simp [restoreObjectIds, h, truthy, bne_iff_ne, hne, reconstructOid, hhex]
  · intro fs s h hne hhex
    simp [restoreObjectIds, h, truthy, bne_iff_ne, hne, reconstructOid, hhex]
  · intro k s hrk hlen hhex
    simp [restoreField, hrk, hlen, hhex]
  · intro k s hrk hlen hhex
    simp [restoreField, hrk, hlen, hhex]
  · intro k s h
    rcases h with h | h
    · simp [restoreField, h]
    · simp [restoreField, h]
  · intro js
    cases hr : restoreList js <;>
      simp [restoreObjectIds, hr, Except.map, bind, Except.bind]
  · intro fs h
    cases hr : restoreFields fs <;>
      simp [restoreObjectIds, h, hr, Except.map, bind, Except.bind]
  · intro s; rfl
  · intro n; rfl
  · intro b; rfl

/-- Witness for C3 (amended): a valid truthy `$oid` mapping collapses to
the identifier, and a recognized key (ending in `Id`) holding 24 valid
hex characters is reconstructed. -/
theorem c3_recognition_rule_amended_witness :
    restoreObjectIds (.obj [("x", .num 1), ("$oid", .str "abcdefabcdefabcdefabcdef")])
      = .ok (.oid "abcdefabcdefabcdefabcdef")
    ∧ restoreField "accountId" (.str "ABCDEFABCDEFABCDEFABCDEF")
      = .ok (.oid "ABCDEFABCDEFABCDEFABCDEF") :=
  ⟨c3_recognition_rule_amended.1 _ "abcdefabcdefabcdefabcdef" rfl (by decide) rfl,
   c3_recognition_rule_amended.2.2.1 "accountId" "ABCDEFABCDEFABCDEFABCDEF" rfl rfl rfl⟩

/-- C10 counterexample: a mapping whose `$oid` key holds the truthy
string `"hello"`. The claim says decode returns the identifier
reconstructed from that value (discarding the other keys); the code
instead throws, returning no identifier at all. -/
theorem c10_oid_collapse_cex :
    restoreObjectIds (.obj [("a", .num 1), ("$oid", .str "hello")])
      = .error () := rfl

/-- C10 (amended): a mapping whose `$oid` key holds a truthy string
from which reconstruction succeeds (a valid 24-hex string) collapses to
only that identifier, discarding every other key; a falsy `$oid` value
(the empty string) leaves the branch unfired and the mapping is
processed key by key, which preserves the key list unchanged. -/
theorem c10_oid_collapse_amended :
    (∀ fs s, List.lookup "$oid" fs = some (.str s) → s ≠ "" → isHex24 s = true →
        restoreObjectIds (.obj fs) = .ok (.oid s))
    ∧ (∀ fs, List.lookup "$oid" fs = some (.str "") →
        restoreObjectIds (.obj fs) = Except.map BVal.obj (restoreFields fs))
    ∧ (∀ fs fs', restoreFields fs = .ok fs' →
        fs'.map Prod.fst = fs.map Prod.fst) := by
  refine ⟨?_, ?_, restoreFields_keys⟩
  · intro fs s h hne hhex
    simp [restoreObjectIds, h, truthy, bne_iff_ne, hne, reconstructOid, hhex]
  · intro fs h
    cases hr : restoreFields fs <;>
      simp [restoreObjectIds, h, truthy, hr, Except.map, bind, Except.bind]

/-- Witness for C10 (amended): a truthy valid `$oid` collapses a
two-key mapping to the bare identifier, and a falsy (empty-string)
`$oid` leaves the mapping to keywise processing. -/
theorem c10_oid_collapse_amended_witness :
    restoreObjectIds (.obj [("k", .bool true), ("$oid", .str "ffffffffffffffffffffffff")])
      = .ok (.oid "ffffffffffffffffffffffff")
    ∧ restoreObjectIds (.obj [("$oid", .str ""), ("b", .num 2)])
      = Except.map BVal.obj (restoreFields [("$oid", .str ""), ("b", .num 2)]) :=
  ⟨c10_oid_collapse_amended.1 _ "ffffffffffffffffffffffff" rfl (by decide) rfl,
   c10_oid_collapse_amended.2.1 _ rfl⟩

/-- One collection's entry in a snapshot artifact
(`backup.collections[collName] = { count, documents }`,
`src/index.js` lines 70-73). -/
structure CollRecord where
  count : Nat
  documents : List BVal

/-- A snapshot artifact (`src/index.js` lines 57-61): source database
name, capture timestamp, and one record per collection in enumeration
order. -/
structure Backup where
  database : String
  timestamp : String
  collections : List (String × CollRecord)

/-- The source database as seen through the driver interface the writer
uses (`connect`, `listCollections`, and a full read per collection),
each of which can fail. Modelled from the spec's external-interface
section; the driver itself is not part of the repository. -/
structure Database where
  connect : Except String Unit
  listCollections : Except String (List String)
  findAll : String → Except String (List BVal)

/-- The artifact store: existing file paths with their contents. File
contents are kept at the value level (see the header comment). -/
abbrev Fs := List (String × Backup)

/-- Does a file exist at `p`? -/
def fileExists (fs : Fs) (p : String) : Bool :=
  fs.any (fun q => q.1 == p)

/-- `fs.writeFileSync(path, content)`: a single write call. -/
def writeFile (fs : Fs) (p : String) (b : Backup) : Fs :=
  (p, b) :: fs

/-- The `for (const collInfo of collections)` loop of `createBackup`
(`src/index.js` lines 63-74): read every document of every collection,
producing one record per collection; any query error aborts the loop. -/
def collectRecords (db : Database) : List String → Except String (List (String × CollRecord))
  | [] => .ok []
  | c :: cs =>
    match db.findAll c with
    | .error e => .error e
    | .ok docs =>
      match collectRecords db cs with
      | .error e => .error e
      | .ok rest => .ok ((c, ⟨docs.length, docs⟩) :: rest)

/-- `createBackup` (`src/index.js` lines 50-87 and the variant at lines
423-465): connect, list the collections, read them all, and only then
serialize the whole artifact to `backupPath` in one write call. The
result pairs the final file store with the returned path or the thrown
error; the store is threaded explicitly so that the error paths' effect
(none) is part of the model. -/
def createBackup (db : Database) (dbName ts : String) (fs : Fs) (backupPath : String) :
    Fs × Except String String :=
  match db.connect with
  | .error e => (fs, .error e)
  | .ok _ =>
    match db.listCollections with
    | .error e => (fs, .error e)
    | .ok colls =>
      match collectRecords db colls with
      | .error e => (fs, .error e)
      | .ok records =>
        (writeFile fs backupPath ⟨dbName, ts, records⟩, .ok backupPath)

/-- C1: capture is atomic with respect to the artifact. If the capture
fails — the connection fails, listing collections fails, or any
per-collection read fails, all of which happen before the single final
write — then no file exists at the target storage path (assuming none
existed there beforehand, which the random path disambiguator provides). -/
theorem c1_capture_atomic (db : Database) (dbName ts : String) (fs : Fs)
    (p : String) (e : String)
    (hfresh : fileExists fs p = false)
    (herr : (createBackup db dbName ts fs p).2 = .error e) :
    fileExists (createBackup db dbName ts fs p).1 p = false := by
  unfold createBackup at herr ⊢
  cases hc : db.connect with
  | error e1 => simp [hc, hfresh]
  | ok u =>
    cases hl : db.listCollections with
    | error e2 => simp [hc, hl, hfresh]
    | ok colls =>
      cases hr : collectRecords db colls with
      | error e3 => simp [hc, hl, hr, hfresh]
      | ok records => simp [hc, hl, hr] at herr

/-- Witness for C1: a database whose connection fails leaves the empty
store without the target file. -/
theorem c1_capture_atomic_witness :
    fileExists
      (createBackup
        ⟨.error "down", .ok [], fun _ => .ok []⟩ "mydb" "t"
        [] "backups/2024/05/06/10_00_00_abcdef01.json").1
      "backups/2024/05/06/10_00_00_abcdef01.json" = false :=
  c1_capture_atomic ⟨.error "down", .ok [], fun _ => .ok []⟩ "mydb" "t"
    [] "backups/2024/05/06/10_00_00_abcdef01.json" "down" rfl rfl

/-- A node of the snapshot storage tree: a file with its name and
modification time, or a directory with its named children. -/
inductive FsEntry where
  | file (name : String) (mtime : Int)
  | dir (name : String) (children : List FsEntry)

mutual

/-- One iteration of the `for (const item of items)` loop of
`cleanOldBackups/scanDirectory` (`src/index.js` lines 103-124, and the
`processDirectory` variant at lines 480-499): a `.json` file older than
the cutoff is unlinked (counted); a directory is swept recursively and
then removed if it is empty afterwards. Returns the surviving entry (if
any) and the number of files deleted beneath it. -/
def sweepEntry (cutoff : Int) : FsEntry → Option FsEntry × Nat
  | .file n m =>
    if endsWithStr n ".json" && decide (m < cutoff) then (none, 1)
    else (some (.file n m), 0)
  | .dir n cs =>
    let r := sweepChildren cutoff cs
    if r.1.isEmpty then (none, r.2) else (some (.dir n r.1), r.2)

/-- `scanDirectory` applied to a directory's entry list: the surviving
children and the total number of files deleted. -/
def sweepChildren (cutoff : Int) : List FsEntry → List FsEntry × Nat
  | [] => ([], 0)
  | e :: es =>
    let r1 := sweepEntry cutoff e
    let r2 := sweepChildren cutoff es
    (match r1.1 with
     | none => r2.1
     | some e' => e' :: r2.1,
     r1.2 + r2.2)

end

mutual

/-- All files (name, modification time) in a subtree, in traversal order. -/
def filesOfEntry : FsEntry → List (String × Int)
  | .file n m => [(n, m)]
  | .dir _ cs => filesOfChildren cs

/-- All files beneath a list of entries. -/
def filesOfChildren : List FsEntry → List (String × Int)
  | [] => []
  | e :: es => filesOfEntry e ++ filesOfChildren es

end

mutual

/-- Remove every directory that contains no file anywhere beneath it
(bottom-up), touching nothing else. -/
def pruneEntry : FsEntry → Option FsEntry
  | .file n m => some (.file n m)
  | .dir n cs =>
    let cs' := pruneChildren cs
    if cs'.isEmpty then none else some (.dir n cs')

/-- `pruneEntry` over a list of entries. -/
def pruneChildren : List FsEntry → List FsEntry
  | [] => []
  | e :: es =>
    match pruneEntry e with
    | none => pruneChildren es
    | some e' => e' :: pruneChildren es

end

/-- Structural induction over storage trees, with the induction
hypothesis available for every child of a directory. -/
theorem fsEntryInduction (motive : FsEntry → Prop)
    (hfile : ∀ n m, motive (.file n m))
    (hdir : ∀ n cs, (∀ e, e ∈ cs → motive e) → motive (.dir n cs)) :
    ∀ e, motive e
  | .file n m => hfile n m
  | .dir n cs => hdir n cs (fun e he =>
      fsEntryInduction motive hfile hdir e)
termination_by e => sizeOf e
decreasing_by
  have h1 : sizeOf e < sizeOf cs := List.sizeOf_lt_of_mem he
  simp only [FsEntry.dir.sizeOf_spec]
  omega

/-- A file entry the sweep would delete: artifact extension and
modification time strictly below the cutoff. -/
def isOldJson (cutoff : Int) (f : String × Int) : Bool :=
  endsWithStr f.1 ".json" && decide (f.2 < cutoff)

/-- The files beneath a surviving entry (none if the entry was removed). -/
def filesAfter : Option FsEntry → List (String × Int)
  | none => []
  | some e => filesOfEntry e

/-- List-level retention bookkeeping, given the entry-level statement
for every member. -/
theorem sweep_children_files (cutoff : Int) :
    ∀ cs : List FsEntry,
      (∀ e ∈ cs,
        filesAfter (sweepEntry cutoff e).1
            = (filesOfEntry e).filter (fun f => !isOldJson cutoff f)
          ∧ (sweepEntry cutoff e).2
            = ((filesOfEntry e).filter (isOldJson cutoff)).length) →
      filesOfChildren (sweepChildren cutoff cs).1
          = (filesOfChildren cs).filter (fun f => !isOldJson cutoff f)
        ∧ (sweepChildren cutoff cs).2
          = ((filesOfChildren cs).filter (isOldJson cutoff)).length := by
  intro cs
  induction cs with
  | nil => intro _; exact ⟨rfl, rfl⟩
  | cons e es ih =>
    intro H
    obtain ⟨h1, h2⟩ := H e (by simp)
    obtain ⟨ih1, ih2⟩ := ih (fun x hx => H x (List.mem_cons_of_mem e hx))
    constructor
    · show filesOfChildren
        (match (sweepEntry cutoff e).1 with
         | none => (sweepChildren cutoff es).1
         | some e' => e' :: (sweepChildren cutoff es).1) = _
      cases hs : (sweepEntry cutoff e).1 with
      | none =>
        rw [hs] at h1
        simp only [filesAfter] at h1
        simp [filesOfChildren, List.filter_append, ih1, ← h1]
      | some e' =>
        rw [hs] at h1
        simp only [filesAfter] at h1
        simp [filesOfChildren, List.filter_append, ih1, h1]
    · show (sweepEntry cutoff e).2 + (sweepChildren cutoff es).2 = _
      simp [h2, ih2, filesOfChildren, List.filter_append]

/-- Entry-level retention bookkeeping: after a sweep, the surviving
files beneath an entry are exactly the original files that are not old
artifacts, and the deletion count is the number of old artifacts. -/
theorem sweep_entry_files (cutoff : Int) :
    ∀ e : FsEntry,
      filesAfter (sweepEntry cutoff e).1
          = (filesOfEntry e).filter (fun f => !isOldJson cutoff f)
        ∧ (sweepEntry cutoff e).2
          = ((filesOfEntry e).filter (isOldJson cutoff)).length := by
  intro e
  induction e using fsEntryInduction with
  | hfile n m =>
    by_cases hb : (endsWithStr n ".json" && decide (m < cutoff)) = true
    · have hO : isOldJson cutoff (n, m) = true := hb
      constructor
      · simp [sweepEntry, hb, filesAfter, filesOfEntry, List.filter_cons, hO]
      · simp [sweepEntry, hb, filesOfEntry, List.filter_cons, hO]
    · rw [Bool.not_eq_true] at hb
      have hO : isOldJson cutoff (n, m) = false := hb
      constructor
      · simp [sweepEntry, hb, filesAfter, filesOfEntry, List.filter_cons, hO]
      · simp [sweepEntry, hb, filesOfEntry, List.filter_cons, hO]
  | hdir n cs ih =>
    obtain ⟨hc1, hc2⟩ := sweep_children_files cutoff cs ih
    by_cases he : (sweepChildren cutoff cs).1.isEmpty = true
    · have hnil := List.isEmpty_iff.mp he
      rw [hnil] at hc1
      simp only [filesOfChildren] at hc1
      constructor
      · simp [sweepEntry, he, filesAfter, filesOfEntry, ← hc1]
      · simp [sweepEntry, he, filesOfEntry, ← hc2]
    · rw [Bool.not_eq_true] at he
      constructor
      · simp [sweepEntry, he, filesAfter, filesOfEntry, hc1]
      · simp [sweepEntry, he, filesOfEntry, ← hc2]

/-- A sweep that deletes no files leaves each entry list as its pruned
form, given the entry-level statement for every member. -/
theorem sweep_zero_children (cutoff : Int) :
    ∀ cs : List FsEntry,
      (∀ e ∈ cs, (sweepEntry cutoff e).2 = 0 →
        (sweepEntry cutoff e).1 = pruneEntry e) →
      (sweepChildren cutoff cs).2 = 0 →
      (sweepChildren cutoff cs).1 = pruneChildren cs := by
  intro cs
  induction cs with
  | nil => intro _ _; rfl
  | cons e es ih =>
    intro H h0
    have hsum : (sweepEntry cutoff e).2 + (sweepChildren cutoff es).2 = 0 := h0
    have he0 : (sweepEntry cutoff e).2 = 0 := by omega
    have hes0 : (sweepChildren cutoff es).2 = 0 := by omega
    have h1 := H e (by simp) he0
    have h2 := ih (fun x hx => H x (List.mem_cons_of_mem e hx)) hes0
    show (match (sweepEntry cutoff e).1 with
          | none => (sweepChildren cutoff es).1
          | some e' => e' :: (sweepChildren cutoff es).1)
        = pruneChildren (e :: es)
    rw [h1, h2]
    cases hp : pruneEntry e <;> simp [pruneChildren, hp]

/-- A sweep that deletes no files beneath an entry leaves it as its
pruned form: it removes exactly the directories containing no files. -/
theorem sweep_zero_entry (cutoff : Int) :
    ∀ e : FsEntry, (sweepEntry cutoff e).2 = 0 →
      (sweepEntry cutoff e).1 = pruneEntry e := by
  intro e
  induction e using fsEntryInduction with
  | hfile n m =>
    intro h0
    by_cases hb : (endsWithStr n ".json" && decide (m < cutoff)) = true
    · simp [sweepEntry, hb] at h0
    · rw [Bool.not_eq_true] at hb
      simp [sweepEntry, hb, pruneEntry]
  | hdir n cs ih =>
    intro h0
    have hcount : (sweepEntry cutoff (.dir n cs)).2 = (sweepChildren cutoff cs).2 := by
      simp [sweepEntry, apply_ite]
    rw [hcount] at h0
    have hcs := sweep_zero_children cutoff cs (fun x hx _h => ih x hx _h) h0
    simp only [sweepEntry, hcs]
    simp [apply_ite, pruneEntry]
    split <;> simp_all [List.isEmpty_iff]

/-- C4: retention correctness with a strict boundary. After a sweep
with cutoff `now - maxAge`, the surviving files are exactly the
original files that are not artifacts of age strictly greater than
`maxAge`, the deletion count is the number of such artifacts (so
exactly those files and no others are deleted), and a file whose age
equals the boundary exactly is not deleted. -/
theorem c4_retention_strict (now maxAge : Int) :
    (∀ cs : List FsEntry,
      filesOfChildren (sweepChildren (now - maxAge) cs).1
        = (filesOfChildren cs).filter
            (fun f => !(endsWithStr f.1 ".json" && decide (maxAge < now - f.2)))
      ∧ (sweepChildren (now - maxAge) cs).2
        = ((filesOfChildren cs).filter
            (fun f => endsWithStr f.1 ".json" && decide (maxAge < now - f.2))).length)
    ∧ (∀ (n : String) (m : Int), now - m = maxAge →
        (sweepEntry (now - maxAge) (.file n m)).1 = some (.file n m)) := by
  have hpred : ∀ f : String × Int,
      isOldJson (now - maxAge) f
        = (endsWithStr f.1 ".json" && decide (maxAge < now - f.2)) := by
    intro f
    unfold isOldJson
    congr 1
    exact decide_eq_decide.mpr (by omega)
  constructor
  · intro cs
    obtain ⟨h1, h2⟩ := sweep_children_files (now - maxAge) cs
      (fun e _ => sweep_entry_files (now - maxAge) e)
    constructor
    · rw [h1]
      apply List.filter_congr
      intro f _
      rw [hpred f]
    · rw [h2]
      congr 1
      apply List.filter_congr
      intro f _
      exact hpred f
  · intro n m hm
    have hlt : ¬ (m < now - maxAge) := by omega
    simp [sweepEntry, hlt]

/-- Witness for C4: with `now = 100` and a 30-unit retention window, an
artifact whose age is exactly 30 survives the sweep. -/
theorem c4_retention_strict_witness :
    (sweepEntry (100 - 30) (FsEntry.file "b.json" 70)).1
      = some (FsEntry.file "b.json" 70) :=
  (c4_retention_strict 100 30).2 "b.json" 70 (by decide)

/-- C7 counterexample: sweeping a tree whose only entry is an empty
directory deletes zero files yet removes that directory, contradicting
the claim's "a sweep that removes no files removes no directories". -/
theorem c7_empty_dir_cex :
    (sweepChildren 0 [FsEntry.dir "2024" []]).2 = 0
    ∧ (sweepChildren 0 [FsEntry.dir "2024" []]).1 = [] :=
  ⟨rfl, rfl⟩

/-- C7 (amended): directory emptiness is evaluated bottom-up after the
directory's own recursive sweep, so a day-directory whose only file is
deleted by the sweep is removed in the same pass; and a sweep that
removes no files removes exactly the directories that contain no files
anywhere beneath them (pre-existing empty directory chains) and no
directory that contains a file. -/
theorem c7_empty_dir_amended :
    (∀ (cutoff : Int) (dname fname : String) (m : Int),
        endsWithStr fname ".json" = true → m < cutoff →
        sweepEntry cutoff (.dir dname [.file fname m]) = (none, 1))
    ∧ (∀ (cutoff : Int) (cs : List FsEntry),
        (sweepChildren cutoff cs).2 = 0 →
        (sweepChildren cutoff cs).1 = pruneChildren cs) := by
  constructor
  · intro cutoff dname fname m hj hm
    simp [sweepEntry, sweepChildren, hj, hm]
  · intro cutoff cs h0
    exact sweep_zero_children cutoff cs (fun e _ => sweep_zero_entry cutoff e) h0

/-- Witness for C7 (amended): a day-directory holding a single old
artifact is reclaimed in the same pass, and a zero-deletion sweep over
a directory holding a non-artifact file equals pruning (which keeps it). -/
theorem c7_empty_dir_amended_witness :
    sweepEntry 10 (FsEntry.dir "06" [FsEntry.file "a.json" 3]) = (none, 1)
    ∧ (sweepChildren 10 [FsEntry.dir "d" [FsEntry.file "keep.txt" 0]]).1
        = pruneChildren [FsEntry.dir "d" [FsEntry.file "keep.txt" 0]] :=
  ⟨c7_empty_dir_amended.1 10 "06" "a.json" 3 rfl (by decide),
   c7_empty_dir_amended.2 10 [FsEntry.dir "d" [FsEntry.file "keep.txt" 0]] rfl⟩

/-- `cleanOldBackups` (`src/index.js` lines 91-137 and the variant at
lines 467-512) as applied to the root snapshot directory: the code
calls `scanDirectory(BACKUP_DIR)`, which removes empty subdirectories
encountered as loop items but never applies `rmdirSync` to the root
itself. -/
def cleanOldBackupsRoot (cutoff : Int) : FsEntry → FsEntry
  | .file n m => .file n m
  | .dir n cs => .dir n (sweepChildren cutoff cs).1

/-- C9: the sweep never deletes the root snapshot directory. For every
storage tree and retention cutoff the root persists as a directory with
its name unchanged — and it persists even when the sweep empties it
entirely, as the concrete fully-reclaimed tree shows. -/
theorem c9_root_preserved :
    (∀ (cutoff : Int) (n : String) (cs : List FsEntry),
      ∃ cs', cleanOldBackupsRoot cutoff (.dir n cs) = .dir n cs')
    ∧ cleanOldBackupsRoot 10
        (.dir "backups" [.dir "2024" [.dir "05" [.dir "06" [.file "a.json" (-5)]]]])
      = .dir "backups" [] :=
  ⟨fun cutoff n cs => ⟨(sweepChildren cutoff cs).1, rfl⟩, rfl⟩

/-- The live database's collections: each name holds its current list
of documents (a semantic model of the external database state). -/
def Live := String → List BVal

/-- The documents currently in collection `n`. -/
def getColl (live : Live) (n : String) : List BVal := live n

/-- Replace the contents of collection `n` (the combined effect of
`deleteMany({})` or of an insert batch on that one collection). -/
def setColl (live : Live) (n : String) (docs : List BVal) : Live :=
  fun c => if c = n then docs else live c

theorem getColl_setColl_self (live : Live) (n : String) (ds : List BVal) :
    getColl (setColl live n ds) n = ds := by
  simp [getColl, setColl]

theorem getColl_setColl_other (live : Live) (n : String) (ds : List BVal)
    (c : String) (h : c ≠ n) :
    getColl (setColl live n ds) c = getColl live c := by
  simp [getColl, setColl, h]

/-- The restore loop of `src/restore.js` lines 146-165: for each
collection of the artifact in mapping order, `deleteMany({})`, then if
the recorded count is positive, decode the documents (which can throw,
aborting the loop) and bulk-insert them with `ordered: false`. The
unordered insert is modelled from the spec's interface: every document
the per-document predicate `ok` accepts is inserted, failures are
reported but do not abort the batch or the loop. -/
def restoreCollsJs (ok : String → BVal → Bool) :
    List (String × CollRecord) → Live → Live × Except Unit Unit
  | [], live => (live, .ok ())
  | (name, r) :: rest, live =>
    if 0 < r.count then
      match restoreList r.documents with
      | .error e => (setColl live name [], .error e)
      | .ok docs =>
        restoreCollsJs ok rest
          (setColl (setColl live name []) name (docs.filter (ok name)))
    else restoreCollsJs ok rest (setColl live name [])

/-- The restore loop of `src/unnamed/part_000` lines 114-129: same
shape, but no identifier decoding and a default (ordered) `insertMany`,
which inserts documents in order up to the first failure and then
throws, aborting the loop. -/
def restoreCollsV2 (ok : String → BVal → Bool) :
    List (String × CollRecord) → Live → Live × Except Unit Unit
  | [], live => (live, .ok ())
  | (name, r) :: rest, live =>
    if 0 < r.count then
      if r.documents.all (ok name) then
        restoreCollsV2 ok rest (setColl (setColl live name []) name r.documents)
      else
        (setColl (setColl live name []) name (r.documents.takeWhile (ok name)),
         .error ())
    else restoreCollsV2 ok rest (setColl live name [])

/-- Collections not named by the artifact are never touched by the
restore loop, whether or not the run succeeds. -/
theorem restoreCollsJs_frame (ok : String → BVal → Bool) :
    ∀ (cs : List (String × CollRecord)) (live : Live) (c : String),
      c ∉ cs.map Prod.fst →
      getColl (restoreCollsJs ok cs live).1 c = getColl live c := by
  intro cs
  induction cs with
  | nil => intro live c _; rfl
  | cons hd rest ih =>
    intro live c hc
    obtain ⟨name, r⟩ := hd
    simp only [List.map_cons, List.mem_cons, not_or] at hc
    obtain ⟨hc1, hc2⟩ := hc
    simp only [restoreCollsJs]
    by_cases h0 : 0 < r.count
    · simp only [if_pos h0]
      cases hr : restoreList r.documents with
      | error e =>
        exact getColl_setColl_other live name [] c hc1
      | ok docs =>
        rw [ih _ c hc2, getColl_setColl_other _ _ _ c hc1,
          getColl_setColl_other _ _ _ c hc1]
    · simp only [if_neg h0]
      rw [ih _ c hc2, getColl_setColl_other _ _ _ c hc1]

/-- On a successful run with all inserts succeeding, each collection of
the artifact ends as exactly its decoded documents (or empty when the
recorded count is zero). -/
theorem restoreCollsJs_replace (ok : String → BVal → Bool)
    (hok : ∀ n d, ok n d = true) :
    ∀ (cs : List (String × CollRecord)) (live : Live),
      (cs.map Prod.fst).Nodup →
      (restoreCollsJs ok cs live).2 = .ok () →
      ∀ n r, (n, r) ∈ cs →
        (0 < r.count → ∃ ds, restoreList r.documents = .ok ds ∧
            getColl (restoreCollsJs ok cs live).1 n = ds)
        ∧ (r.count = 0 → getColl (restoreCollsJs ok cs live).1 n = []) := by
  intro cs
  induction cs with
  | nil => intro live _ _ n r hmem; cases hmem
  | cons hd rest ih =>
    intro live hnd hsucc n r hmem
    obtain ⟨name0, r0⟩ := hd
    rw [List.map_cons, List.nodup_cons] at hnd
    obtain ⟨hname0, hndrest⟩ := hnd
    simp only [restoreCollsJs] at hsucc ⊢
    by_cases h0 : 0 < r0.count
    · simp only [if_pos h0] at hsucc ⊢
      cases hr : restoreList r0.documents with
      | error e => rw [hr] at hsucc; cases hsucc
      | ok docs =>
        rw [hr] at hsucc
        dsimp only at hsucc ⊢
        rcases List.mem_cons.mp hmem with heq | hmem'
        · obtain ⟨hn, hrr⟩ := Prod.mk.injEq .. ▸ heq
          subst hn; subst hrr
          constructor
          · intro _
            refine ⟨docs, hr, ?_⟩
            rw [restoreCollsJs_frame ok rest _ n hname0,
              getColl_setColl_self]
            exact List.filter_eq_self.mpr (fun d _ => hok n d)
          · intro hz; omega
        · exact ih _ hndrest hsucc n r hmem'
    · simp only [if_neg h0] at hsucc ⊢
      rcases List.mem_cons.mp hmem with heq | hmem'
      · obtain ⟨hn, hrr⟩ := Prod.mk.injEq .. ▸ heq
        subst hn; subst hrr
        constructor
        · intro hpos; omega
        · intro _
          rw [restoreCollsJs_frame ok rest _ n hname0, getColl_setColl_self]
      · exact ih _ hndrest hsucc n r hmem'

/-- C6: restore is a per-collection overwrite, never a whole-database
wipe. On a successful restore with all inserts succeeding, every
collection absent from the artifact keeps exactly its previous
documents, and every collection named by the artifact is fully replaced:
its prior documents are deleted and the artifact's (decoded) documents
are inserted — or it is left empty when the recorded count is zero. -/
theorem c6_restore_per_collection (cs : List (String × CollRecord))
    (live : Live) (ok : String → BVal → Bool)
    (hnd : (cs.map Prod.fst).Nodup)
    (hok : ∀ n d, ok n d = true)
    (hsucc : (restoreCollsJs ok cs live).2 = .ok ()) :
    (∀ c, c ∉ cs.map Prod.fst →
        getColl (restoreCollsJs ok cs live).1 c = getColl live c)
    ∧ (∀ n r, (n, r) ∈ cs →
        (0 < r.count → ∃ ds, restoreList r.documents = .ok ds ∧
            getColl (restoreCollsJs ok cs live).1 n = ds)
        ∧ (r.count = 0 → getColl (restoreCollsJs ok cs live).1 n = [])) :=
  ⟨fun c hc => restoreCollsJs_frame ok cs live c hc,
   restoreCollsJs_replace ok hok cs live hnd hsucc⟩

/-- Witness for C6: restoring an artifact with collections `A` and `B`
against a live database holding `A`, `B` and `C` leaves `C`'s documents
untouched and replaces `A` with the artifact's documents. -/
theorem c6_restore_per_collection_witness :
    getColl (restoreCollsJs (fun _ _ => true)
        [("A", ⟨1, [BVal.str "a"]⟩), ("B", ⟨1, [BVal.str "b"]⟩)]
        (fun c => if c = "A" then [BVal.null]
                  else if c = "B" then [BVal.bool true]
                  else if c = "C" then [BVal.num 7] else [])).1 "C"
      = [BVal.num 7]
    ∧ getColl (restoreCollsJs (fun _ _ => true)
        [("A", ⟨1, [BVal.str "a"]⟩), ("B", ⟨1, [BVal.str "b"]⟩)]
        (fun c => if c = "A" then [BVal.null]
                  else if c = "B" then [BVal.bool true]
                  else if c = "C" then [BVal.num 7] else [])).1 "A"
      = [BVal.str "a"] := by
  have h := c6_restore_per_collection
    [("A", ⟨1, [BVal.str "a"]⟩), ("B", ⟨1, [BVal.str "b"]⟩)]
    (fun c => if c = "A" then [BVal.null]
              else if c = "B" then [BVal.bool true]
              else if c = "C" then [BVal.num 7] else [])
    (fun _ _ => true) (by decide) (fun _ _ => rfl) rfl
  constructor
  · exact h.1 "C" (by decide)
  · obtain ⟨hpos, _⟩ := h.2 "A" ⟨1, [BVal.str "a"]⟩ (by exact List.mem_cons_self _ _)
    obtain ⟨ds, hds, hg⟩ := hpos (by decide)
    rw [show restoreList [BVal.str "a"] = Except.ok [BVal.str "a"] from rfl] at hds
    cases hds
    exact hg

/-- C8 counterexample: the `src/unnamed/part_000` restore variant calls
`insertMany` without `ordered: false`. With an artifact collection of
two documents where the first fails and the second would succeed, the
ordered insert aborts at the first failure: the succeeding document is
never inserted (the collection ends empty) and the run errors. -/
theorem c8_unordered_insert_cex :
    (restoreCollsV2 (fun _ d => match d with | BVal.num 2 => true | _ => false)
        [("users", ⟨2, [BVal.num 1, BVal.num 2]⟩)] (fun _ => [])).2 = .error ()
    ∧ getColl (restoreCollsV2 (fun _ d => match d with | BVal.num 2 => true | _ => false)
        [("users", ⟨2, [BVal.num 1, BVal.num 2]⟩)] (fun _ => [])).1 "users" = []
    ∧ (fun (d : BVal) => match d with | BVal.num 2 => true | _ => false) (BVal.num 2)
        = true :=
  ⟨rfl, rfl, rfl⟩

/-- C8 (amended): in the `src/restore.js` restore (which passes
`ordered: false`), a failure on one document does not abort insertion
of the remaining documents of that batch — each named collection ends
with exactly the documents the insert accepted — and the per-document
failures are not escalated: the whole restore still completes
successfully (provided decoding succeeds). In the `src/unnamed/part_000`
variant the insert is ordered and a failure aborts the batch and the
run (see the counterexample). -/
theorem c8_unordered_insert_amended (cs : List (String × CollRecord)) :
    ∀ (live : Live) (ok : String → BVal → Bool),
      (cs.map Prod.fst).Nodup →
      (∀ n r, (n, r) ∈ cs → 0 < r.count →
        ∃ ds, restoreList r.documents = .ok ds) →
      (restoreCollsJs ok cs live).2 = .ok ()
      ∧ (∀ n r, (n, r) ∈ cs → 0 < r.count →
          ∀ ds, restoreList r.documents = .ok ds →
            getColl (restoreCollsJs ok cs live).1 n = ds.filter (ok n)) := by
  induction cs with
  | nil =>
    intro live ok _ _
    exact ⟨rfl, by intro n r hmem; cases hmem⟩
  | cons hd rest ih =>
    intro live ok hnd hdec
    obtain ⟨name0, r0⟩ := hd
    rw [List.map_cons, List.nodup_cons] at hnd
    obtain ⟨hname0, hndrest⟩ := hnd
    by_cases h0 : 0 < r0.count
    · obtain ⟨docs, hr⟩ := hdec name0 r0 (List.mem_cons_self _ _) h0
      have hred : restoreCollsJs ok ((name0, r0) :: rest) live
          = restoreCollsJs ok rest
              (setColl (setColl live name0 []) name0 (docs.filter (ok name0))) := by
        simp only [restoreCollsJs, if_pos h0, hr]
      obtain ⟨hsucc2, hins2⟩ := ih
        (setColl (setColl live name0 []) name0 (docs.filter (ok name0))) ok hndrest
        (fun n r hmem hpos => hdec n r (List.mem_cons_of_mem _ hmem) hpos)
      constructor
      · rw [hred]; exact hsucc2
      · intro n r hmem hpos ds hds
        rw [hred]
        rcases List.mem_cons.mp hmem with heq | hmem'
        · obtain ⟨hn, hrr⟩ := Prod.mk.injEq .. ▸ heq
          subst hn; subst hrr
          rw [hr] at hds
          cases hds
          rw [restoreCollsJs_frame ok rest _ n hname0, getColl_setColl_self]
        · exact hins2 n r hmem' hpos ds hds
    · have hred : restoreCollsJs ok ((name0, r0) :: rest) live
          = restoreCollsJs ok rest (setColl live name0 []) := by
        simp only [restoreCollsJs, if_neg h0]
      obtain ⟨hsucc2, hins2⟩ := ih (setColl live name0 []) ok hndrest
        (fun n r hmem hpos => hdec n r (List.mem_cons_of_mem _ hmem) hpos)
      constructor
      · rw [hred]; exact hsucc2
      · intro n r hmem hpos ds hds
        rw [hred]
        rcases List.mem_cons.mp hmem with heq | hmem'
        · obtain ⟨hn, hrr⟩ := Prod.mk.injEq .. ▸ heq
          subst hn; subst hrr
          omega
        · exact hins2 n r hmem' hpos ds hds

/-- Witness for C8 (amended): a batch of two documents where the first
fails and the second succeeds — the unordered restore still completes
and the collection ends with exactly the succeeding document. -/
theorem c8_unordered_insert_amended_witness :
    (restoreCollsJs (fun _ d => match d with | BVal.num 1 => false | _ => true)
        [("users", ⟨2, [BVal.num 1, BVal.num 2]⟩)] (fun _ => [])).2 = .ok ()
    ∧ getColl (restoreCollsJs (fun _ d => match d with | BVal.num 1 => false | _ => true)
        [("users", ⟨2, [BVal.num 1, BVal.num 2]⟩)] (fun _ => [])).1 "users"
      = [BVal.num 2] := by
  have h := c8_unordered_insert_amended
    [("users", ⟨2, [BVal.num 1, BVal.num 2]⟩)] (fun _ => [])
    (fun _ d => match d with | BVal.num 1 => false | _ => true)
    (by decide)
    (by
      intro n r hmem _
      rw [List.mem_singleton] at hmem
      obtain ⟨hn, hrr⟩ := Prod.mk.injEq .. ▸ hmem
      subst hrr
      exact ⟨[BVal.num 1, BVal.num 2], rfl⟩)
  refine ⟨h.1, ?_⟩
  have h2 := h.2 "users" ⟨2, [BVal.num 1, BVal.num 2]⟩ (List.mem_singleton.mpr rfl)
    (by decide) [BVal.num 1, BVal.num 2] rfl
  simpa using h2

/-- `String(n).padStart(2, '0')` from `src/index.js` lines 406-410 (for
the values below 100 the code feeds it): a leading zero for one-digit
numbers, the plain decimal rendering otherwise. -/
def pad2 (n : Nat) : String :=
  if n < 10 then "0" ++ Nat.repr n else Nat.repr n

/-- The capture instant at second granularity, the fields `new Date()`
provides to the path builder. -/
structure Timestamp where
  year : Nat
  month : Nat
  day : Nat
  hour : Nat
  minute : Nat
  second : Nat

/-- `generateBackupPath` (`src/index.js` lines 403-421, and inline at
lines 26-41): `<root>/<YYYY>/<MM>/<DD>/<HH>_<mm>_<ss>_<hash>.json`,
with `path.join` modelled as `/`-concatenation. -/
def backupPath (root : String) (t : Timestamp) (hash : String) : String :=
  root ++ "/" ++ Nat.repr t.year ++ "/" ++ pad2 t.month ++ "/" ++ pad2 t.day
    ++ "/" ++ pad2 t.hour ++ "_" ++ pad2 t.minute ++ "_" ++ pad2 t.second
    ++ "_" ++ hash ++ ".json"

/-- The capture instant of `a` precedes that of `b` at second
granularity (lexicographic on the date-time fields). -/
def tsBefore (a b : Timestamp) : Prop :=
  a.year < b.year
  ∨ (a.year = b.year ∧ (a.month < b.month
  ∨ (a.month = b.month ∧ (a.day < b.day
  ∨ (a.day = b.day ∧ (a.hour < b.hour
  ∨ (a.hour = b.hour ∧ (a.minute < b.minute
  ∨ (a.minute = b.minute ∧ a.second < b.second)))))))))

/-- A calendar-plausible instant with a four-digit year: the ranges
`new Date` produces (and within which the two-digit zero padding is
exact). -/
def validTs (t : Timestamp) : Prop :=
  1000 ≤ t.year ∧ t.year ≤ 9999 ∧ 1 ≤ t.month ∧ t.month ≤ 12
    ∧ 1 ≤ t.day ∧ t.day ≤ 31 ∧ t.hour ≤ 23 ∧ t.minute ≤ 59 ∧ t.second ≤ 59

/-- Unfolding `Nat.toDigitsCore` for a two-digit number. -/
theorem toDigitsCore_two (f n : Nat) (l : List Char)
    (h1 : 10 ≤ n) (h2 : n < 100) (hf : 2 ≤ f) :
    Nat.toDigitsCore 10 f n l
      = Nat.digitChar (n / 10) :: Nat.digitChar (n % 10) :: l := by
  obtain ⟨f1, rfl⟩ : ∃ f1, f = f1 + 2 := ⟨f - 2, by omega⟩
  have ha : ¬ (n / 10 = 0) := by omega
  have hb : n / 10 / 10 = 0 := by omega
  have hc : n / 10 % 10 = n / 10 := by omega
  simp [Nat.toDigitsCore, ha, hb, hc]

/-- Unfolding `Nat.toDigitsCore` for a four-digit number. -/
theorem toDigitsCore_four (f n : Nat) (l : List Char)
    (h1 : 1000 ≤ n) (h2 : n < 10000) (hf : 4 ≤ f) :
    Nat.toDigitsCore 10 f n l
      = Nat.digitChar (n / 1000) :: Nat.digitChar (n / 100 % 10)
        :: Nat.digitChar (n / 10 % 10) :: Nat.digitChar (n % 10) :: l := by
  obtain ⟨f1, rfl⟩ : ∃ f1, f = f1 + 4 := ⟨f - 4, by omega⟩
  have ha : ¬ (n / 10 = 0) := by omega
  have hb : ¬ (n / 10 / 10 = 0) := by omega
  have hc : ¬ (n / 10 / 10 / 10 = 0) := by omega
  have hd : n / 10 / 10 / 10 / 10 = 0 := by omega
  have he : n / 10 / 10 = n / 100 := by omega
  have hg : n / 10 / 10 / 10 = n / 1000 := by omega
  have hi : n / 1000 % 10 = n / 1000 := by omega
  have hb2 : ¬ (n / 100 = 0) := by omega
  have hc2 : n / 100 / 10 = n / 1000 := by omega
  have hd2 : ¬ (n / 1000 = 0) := by omega
  have he2 : n / 1000 / 10 = 0 := by omega
  simp [Nat.toDigitsCore, ha, hb, hc, hd, he, hg, hi, hb2, hc2, hd2, he2]

/-- The decimal rendering of a one-digit number. -/
theorem repr_one_digit (n : Nat) (h : n < 10) :
    (Nat.repr n).data = [Nat.digitChar n] := by
  have ha : n / 10 = 0 := by omega
  have hb : n % 10 = n := by omega
  simp [Nat.repr, Nat.toDigits, List.asString, Nat.toDigitsCore, ha, hb]

/-- The decimal rendering of a two-digit number. -/
theorem repr_two_digit (n : Nat) (h1 : 10 ≤ n) (h2 : n < 100) :
    (Nat.repr n).data = [Nat.digitChar (n / 10), Nat.digitChar (n % 10)] := by
  have := toDigitsCore_two (n + 1) n [] h1 h2 (by omega)
  simp [Nat.repr, Nat.toDigits, List.asString, this]

/-- The decimal rendering of a four-digit number. -/
theorem repr_four_digit (n : Nat) (h1 : 1000 ≤ n) (h2 : n ≤ 9999) :
    (Nat.repr n).data
      = [Nat.digitChar (n / 1000), Nat.digitChar (n / 100 % 10),
         Nat.digitChar (n / 10 % 10), Nat.digitChar (n % 10)] := by
  have := toDigitsCore_four (n + 1) n [] h1 (by omega) (by omega)
  simp [Nat.repr, Nat.toDigits, List.asString, this]

/-- The characters of a zero-padded two-digit field. -/
theorem pad2_data (n : Nat) (h : n < 100) :
    (pad2 n).data = [Nat.digitChar (n / 10), Nat.digitChar (n % 10)] := by
  by_cases h10 : n < 10
  · have ha : n / 10 = 0 := by omega
    have hb : n % 10 = n := by omega
    simp only [pad2, if_pos h10]
    show ('0' :: (Nat.repr n).data) = _
    rw [repr_one_digit n h10, ha, hb]
    rfl
  · simp only [pad2, if_neg h10]
    exact repr_two_digit n (by omega) h

/-- Decimal digit characters compare like the digits they render. -/
theorem digitChar_lt : ∀ a : Nat, a < 10 → ∀ b : Nat, b < 10 → a < b →
    Nat.digitChar a < Nat.digitChar b := by decide

/-- Two equal-length lexicographically ordered blocks stay ordered
under arbitrary suffixes (the strict difference occurs inside the
blocks, so the tails never matter). -/
theorem lex_append_blocks :
    ∀ {xs ys : List Char} (t₁ t₂ : List Char), xs.length = ys.length →
      List.Lex (· < ·) xs ys → List.Lex (· < ·) (xs ++ t₁) (ys ++ t₂) := by
  intro xs ys t₁ t₂ hlen h
  induction h with
  | nil => simp at hlen
  | @rel a l₁ b l₂ hr => exact List.Lex.rel hr
  | @cons a l₁ l₂ h ih =>
    exact List.Lex.cons (ih (by simpa using hlen))

/-- The two-digit block of a smaller field is lexicographically
smaller. -/
theorem twoDigits_lt (m₁ m₂ : Nat) (h₁ : m₁ < 100) (h₂ : m₂ < 100)
    (hlt : m₁ < m₂) :
    List.Lex (· < ·)
      [Nat.digitChar (m₁ / 10), Nat.digitChar (m₁ % 10)]
      [Nat.digitChar (m₂ / 10), Nat.digitChar (m₂ % 10)] := by
  rcases Nat.lt_trichotomy (m₁ / 10) (m₂ / 10) with h | h | h
  · exact List.Lex.rel (digitChar_lt _ (by omega) _ (by omega) h)
  · rw [h]
    refine List.Lex.cons (List.Lex.rel ?_)
    exact digitChar_lt _ (by omega) _ (by omega) (by omega)
  · omega

/-- The four-digit block of a smaller year is lexicographically
smaller. -/
theorem fourDigits_lt (y₁ y₂ : Nat) (ha : 1000 ≤ y₁) (hb : y₁ ≤ 9999)
    (hc : 1000 ≤ y₂) (hd : y₂ ≤ 9999) (hlt : y₁ < y₂) :
    List.Lex (· < ·)
      [Nat.digitChar (y₁ / 1000), Nat.digitChar (y₁ / 100 % 10),
       Nat.digitChar (y₁ / 10 % 10), Nat.digitChar (y₁ % 10)]
      [Nat.digitChar (y₂ / 1000), Nat.digitChar (y₂ / 100 % 10),
       Nat.digitChar (y₂ / 10 % 10), Nat.digitChar (y₂ % 10)] := by
  rcases Nat.lt_trichotomy (y₁ / 1000) (y₂ / 1000) with h | h | h
  · exact List.Lex.rel (digitChar_lt _ (by omega) _ (by omega) h)
  · rw [h]
    refine List.Lex.cons ?_
    rcases Nat.lt_trichotomy (y₁ / 100 % 10) (y₂ / 100 % 10) with h' | h' | h'
    · exact List.Lex.rel (digitChar_lt _ (by omega) _ (by omega) h')
    · rw [h']
      refine List.Lex.cons ?_
      rcases Nat.lt_trichotomy (y₁ / 10 % 10) (y₂ / 10 % 10) with h'' | h'' | h''
      · exact List.Lex.rel (digitChar_lt _ (by omega) _ (by omega) h'')
      · rw [h'']
        refine List.Lex.cons (List.Lex.rel ?_)
        exact digitChar_lt _ (by omega) _ (by omega) (by omega)
      · omega
    · omega
  · omega

/-- The storage path, as its character list grouped field by field. -/
theorem backupPath_toList (root : String) (t : Timestamp) (hash : String) :
    (backupPath root t hash).toList
      = root.toList ++ '/' :: ((Nat.repr t.year).data
        ++ '/' :: ((pad2 t.month).data
        ++ '/' :: ((pad2 t.day).data
        ++ '/' :: ((pad2 t.hour).data
        ++ '_' :: ((pad2 t.minute).data
        ++ '_' :: ((pad2 t.second).data
        ++ '_' :: (hash.toList ++ ".json".toList))))))) := by
  have happ : ∀ s u : String, (s ++ u).toList = s.toList ++ u.toList :=
    fun _ _ => rfl
  simp only [backupPath, happ, List.append_assoc]
  rfl

/-- C5 counterexample: two captures in the same second (so capture A
can be strictly before capture B in wall-clock time) produce paths
whose order is decided by the random disambiguator alone — here A's
path is not less than B's. -/
theorem c5_path_sortable_cex :
    ¬ (backupPath "backups" ⟨2024, 5, 6, 7, 8, 9⟩ "ff000000"
        < backupPath "backups" ⟨2024, 5, 6, 7, 8, 9⟩ "00000000")
    ∧ backupPath "backups" ⟨2024, 5, 6, 7, 8, 9⟩ "00000000"
        < backupPath "backups" ⟨2024, 5, 6, 7, 8, 9⟩ "ff000000" := by
  constructor
  · intro hcontra
    rw [String.lt_iff_toList_lt] at hcontra
    exact absurd hcontra (by decide)
  · rw [String.lt_iff_toList_lt]
    decide

/-- C5 (amended): if capture A's instant truncated to seconds is
strictly earlier than capture B's (not merely earlier in sub-second
wall-clock time), then A's storage path is strictly smaller than B's in
lexicographic string order, whatever the two random disambiguators are
— for calendar-valid instants with four-digit years. -/
theorem c5_path_sortable_amended (root hashA hashB : String)
    (t1 t2 : Timestamp) (hv1 : validTs t1) (hv2 : validTs t2)
    (hlt : tsBefore t1 t2) :
    backupPath root t1 hashA < backupPath root t2 hashB := by
  obtain ⟨hy1a, hy1b, hm1a, hm1b, hd1a, hd1b, hh1, hmi1, hs1⟩ := hv1
  obtain ⟨hy2a, hy2b, hm2a, hm2b, hd2a, hd2b, hh2, hmi2, hs2⟩ := hv2
  rw [String.lt_iff_toList_lt, backupPath_toList, backupPath_toList]
  apply List.Lex.append_left
  apply List.Lex.cons
  rw [repr_four_digit t1.year hy1a hy1b, repr_four_digit t2.year hy2a hy2b]
  rcases hlt with hy | ⟨hyeq, hrest⟩
  · exact lex_append_blocks _ _ rfl (fourDigits_lt _ _ hy1a hy1b hy2a hy2b hy)
  rw [hyeq]
  apply List.Lex.append_left
  apply List.Lex.cons
  rw [pad2_data t1.month (by omega), pad2_data t2.month (by omega)]
  rcases hrest with hm | ⟨hmeq, hrest⟩
  · exact lex_append_blocks _ _ rfl (twoDigits_lt _ _ (by omega) (by omega) hm)
  rw [hmeq]
  apply List.Lex.append_left
  apply List.Lex.cons
  rw [pad2_data t1.day (by omega), pad2_data t2.day (by omega)]
  rcases hrest with hd | ⟨hdeq, hrest⟩
  · exact lex_append_blocks _ _ rfl (twoDigits_lt _ _ (by omega) (by omega) hd)
  rw [hdeq]
  apply List.Lex.append_left
  apply List.Lex.cons
  rw [pad2_data t1.hour (by omega), pad2_data t2.hour (by omega)]
  rcases hrest with hh | ⟨hheq, hrest⟩
  · exact lex_append_blocks _ _ rfl (twoDigits_lt _ _ (by omega) (by omega) hh)
  rw [hheq]
  apply List.Lex.append_left
  apply List.Lex.cons
  rw [pad2_data t1.minute (by omega), pad2_data t2.minute (by omega)]
  rcases hrest with hmi | ⟨hmieq, hs⟩
  · exact lex_append_blocks _ _ rfl (twoDigits_lt _ _ (by omega) (by omega) hmi)
  rw [hmieq]
  apply List.Lex.append_left
  apply List.Lex.cons
  rw [pad2_data t1.second (by omega), pad2_data t2.second (by omega)]
  exact lex_append_blocks _ _ rfl (twoDigits_lt _ _ (by omega) (by omega) hs)

/-- Witness for C5 (amended): a capture one second earlier produces a
smaller path even with a lexicographically maximal disambiguator
against a minimal one. -/
theorem c5_path_sortable_amended_witness :
    validTs ⟨2024, 5, 6, 7, 8, 9⟩ ∧ validTs ⟨2024, 5, 6, 7, 8, 10⟩
    ∧ tsBefore ⟨2024, 5, 6, 7, 8, 9⟩ ⟨2024, 5, 6, 7, 8, 10⟩
    ∧ backupPath "backups" ⟨2024, 5, 6, 7, 8, 9⟩ "ffffffff"
        < backupPath "backups" ⟨2024, 5, 6, 7, 8, 10⟩ "00000000" :=
  ⟨by unfold validTs; decide, by unfold validTs; decide,
   by unfold tsBefore; decide,
   c5_path_sortable_amended "backups" "ffffffff" "00000000"
     ⟨2024, 5, 6, 7, 8, 9⟩ ⟨2024, 5, 6, 7, 8, 10⟩
     (by unfold validTs; decide) (by unfold validTs; decide)
     (by unfold tsBefore; decide)⟩
